import Mathlib

/-!
Verification of `get_presentation_timings.py` (`parse_log_file`).

The source routine loads a tab-separated Presentation log into a pandas
DataFrame with columns `Trial`, `name(str)`, `Time`, upper-cases the
`name(str)` column and the three marker/type parameters, checks that the
start and end markers occur, warns about requested trial types that are
absent, filters to the requested types plus the two markers, converts raw
times to onsets relative to the first start-marker row, computes durations
from consecutive filtered rows (the last filtered row's duration against
the first end-marker row's raw time), and finally drops the marker rows.

The embedding below models the loaded DataFrame as a `List LogRow`
(file/pandas I/O is outside the claims), numeric times as rationals, and
the `ValueError` raise as `Except.error` carrying the list of missing
markers.  The warning emitted for absent trial types is returned as the
first component of the success value.
-/

/-- One data row of the loaded log table: columns `Trial`, `name(str)`, `Time`. -/
structure LogRow where
  trial : Int
  name : String
  time : ℚ
deriving DecidableEq, Repr

/-- One row of the returned DataFrame: columns `trial_num`, `trial_type`,
`onset`, `duration`. -/
structure EventRow where
  trial_num : Int
  trial_type : String
  onset : ℚ
  duration : ℚ
deriving DecidableEq, Repr

/-- Intermediate row after column selection/renaming and onset adjustment
(lines 58-62 of the source), before the `duration` column exists. -/
structure ProjRow where
  trial_num : Int
  trial_type : String
  onset : ℚ
deriving DecidableEq, Repr

deriving instance DecidableEq for Except

/-- Model of Python `str.upper()` on the basic-latin fragment: upper-case
every character. -/
def upper (s : String) : String := String.mk (s.data.map Char.toUpper)

/-- Upper-case the `name(str)` field of a row (line 33 of the source). -/
def normName (r : LogRow) : LogRow := { r with name := upper r.name }

/-- Column selection, renaming and onset adjustment (lines 58-62):
`onset = (Time - start_time) / 10000`. -/
def mkProj (start_time : ℚ) (r : LogRow) : ProjRow :=
  { trial_num := r.trial, trial_type := r.name, onset := (r.time - start_time) / 10000 }

/-- Duration computation (lines 65-67): each row's duration is the absolute
difference with the next row's onset (`diff(-1).abs()`); the last row's
duration is overwritten with `(end_time - onset * 10000) / 10000`. -/
def addDurations (end_time : ℚ) : List ProjRow → List EventRow
  | [] => []
  | [r] => [{ trial_num := r.trial_num, trial_type := r.trial_type, onset := r.onset,
              duration := (end_time - r.onset * 10000) / 10000 }]
  | r :: r' :: rest =>
      { trial_num := r.trial_num, trial_type := r.trial_type, onset := r.onset,
        duration := |r.onset - r'.onset| } :: addDurations end_time (r' :: rest)

/-- The retained names (line 50): requested trial types together with the
start and end markers. -/
def relevantNames (s e : String) (tt : List String) : List String := s :: e :: tt

/-- Row filtering (line 51): keep the rows whose name is relevant. -/
def filteredRows (rows : List LogRow) (s e : String) (tt : List String) : List LogRow :=
  rows.filter (fun r => decide (r.name ∈ relevantNames s e tt))

/-- The requested trial types absent from the log (line 45,
`set(trial_types) - set(data['name(str)'].values)`). -/
def missingTypes (rows : List LogRow) (tt : List String) : List String :=
  tt.dedup.filter (fun t => decide (t ∉ rows.map LogRow.name))

/-- Removal of the marker rows from the final DataFrame (line 70). -/
def stripMarkers (s e : String) (l : List EventRow) : List EventRow :=
  l.filter (fun r => decide (r.trial_type ≠ s ∧ r.trial_type ≠ e))

/-- The transformation on already-normalized inputs (lines 38-72 of the
source, after the upper-casing of lines 33-35 and 44).  `rows.find?`
models `data.loc[data[name] == marker, 'Time'].iloc[0]` (first occurrence
in table order) as well as the membership test of line 38; if either
marker is absent the `ValueError` of line 41 is modelled by `Except.error`
carrying the missing-marker list of line 39. -/
def parseNormalized (rows : List LogRow) (s e : String) (tt : List String) :
    Except (List String) (List String × List EventRow) :=
  match rows.find? (fun r => decide (r.name = s)), rows.find? (fun r => decide (r.name = e)) with
  | some rs, some re =>
      Except.ok (missingTypes rows tt,
        stripMarkers s e (addDurations re.time ((filteredRows rows s e tt).map (mkProj rs.time))))
  | _, _ => Except.error (([s, e]).filter (fun t => decide (t ∉ rows.map LogRow.name)))

/-- Embedding of `parse_log_file` on the loaded table: upper-case the name
column and the parameters (lines 33-35 and 44), then run the normalized
transformation.  On success the result carries the missing-type warning
set and the final DataFrame rows. -/
def parse_log_file (data : List LogRow) (start_trial_type end_trial_type : String)
    (trial_types : List String) : Except (List String) (List String × List EventRow) :=
  parseNormalized (data.map normName) (upper start_trial_type) (upper end_trial_type)
    (trial_types.map upper)

/-- The example log of the spec (§8): four rows bracketed by the markers. -/
def exRows : List LogRow :=
  [⟨1, "FMRI_T0", 1000000⟩, ⟨1, "VAS", 1050000⟩, ⟨2, "PAIN", 1080000⟩, ⟨3, "END", 1100000⟩]

/-- The example trial types of interest. -/
def exTypes : List String := ["VAS", "PAIN"]

/-- The expected output table for the example. -/
def exOut : List EventRow := [⟨1, "VAS", 5, 3⟩, ⟨2, "PAIN", 8, 2⟩]

/-- The upper-cased name column of the loaded table, as used by every
membership test of the source after line 33. -/
def logNames (data : List LogRow) : List String := (data.map normName).map LogRow.name

/-- Spec-side characterisation of the reference times of step 6 of the
spec: `t` is the raw time of the first row (in table order) whose
normalized name is the marker `m`. -/
def isFirstMarkerTime (rows : List LogRow) (m : String) (t : ℚ) : Prop :=
  ∃ l1 r l2, rows = l1 ++ r :: l2 ∧ r.name = m ∧ r.time = t ∧ ∀ x ∈ l1, x.name ≠ m

lemma find?_first {α : Type} {p : α → Bool} {l : List α} {a : α} (h : l.find? p = some a) :
    ∃ l1 l2, l = l1 ++ a :: l2 ∧ p a = true ∧ ∀ x ∈ l1, p x = false := by
  induction l with
  | nil => simp at h
  | cons b m ih =>
    by_cases hb : p b
    · rw [List.find?_cons_of_pos _ hb] at h
      injection h with h
      exact ⟨[], m, by simp [h], h ▸ hb, by simp⟩
    · rw [List.find?_cons_of_neg _ hb] at h
      obtain ⟨l1, l2, hsplit, hpa, hneg⟩ := ih h
      refine ⟨b :: l1, l2, by rw [hsplit]; rfl, hpa, ?_⟩
      intro x hx
      rcases List.mem_cons.mp hx with hx | hx
      · rw [hx]; exact Bool.eq_false_iff.mpr hb
      · exact hneg x hx

lemma isFirst_of_find? {rows : List LogRow} {m : String} {rs : LogRow}
    (h : rows.find? (fun r => decide (r.name = m)) = some rs) :
    isFirstMarkerTime rows m rs.time := by
  obtain ⟨l1, l2, hsplit, hp, hneg⟩ := find?_first h
  refine ⟨l1, rs, l2, hsplit, by simpa using hp, rfl, ?_⟩
  intro x hx
  have := hneg x hx
  simpa using this

lemma find?_name_eq_none {rows : List LogRow} {m : String} :
    rows.find? (fun r => decide (r.name = m)) = none ↔ m ∉ rows.map LogRow.name := by
  rw [List.find?_eq_none]
  constructor
  · intro h hmem
    obtain ⟨r, hr, hname⟩ := List.mem_map.mp hmem
    exact absurd (by simpa using hname) (h r hr)
  · intro h r hr
    simp only [decide_eq_true_eq]
    intro heq
    exact h (heq ▸ List.mem_map_of_mem LogRow.name hr)

lemma find?_of_name_mem {rows : List LogRow} {m : String}
    (h : m ∈ rows.map LogRow.name) :
    ∃ r, rows.find? (fun x => decide (x.name = m)) = some r := by
  cases hf : rows.find? (fun x => decide (x.name = m)) with
  | none => exact absurd h (find?_name_eq_none.mp hf)
  | some r => exact ⟨r, rfl⟩

lemma addDurations_length (t : ℚ) (l : List ProjRow) : (addDurations t l).length = l.length := by
  induction l with
  | nil => rfl
  | cons a m ih =>
    cases m with
    | nil => rfl
    | cons b m2 => simpa [addDurations] using ih

lemma addDurations_map_type (t : ℚ) (l : List ProjRow) :
    (addDurations t l).map EventRow.trial_type = l.map ProjRow.trial_type := by
  induction l with
  | nil => rfl
  | cons a m ih =>
    cases m with
    | nil => rfl
    | cons b m2 => simpa [addDurations] using ih

lemma addDurations_map_onset (t : ℚ) (l : List ProjRow) :
    (addDurations t l).map EventRow.onset = l.map ProjRow.onset := by
  induction l with
  | nil => rfl
  | cons a m ih =>
    cases m with
    | nil => rfl
    | cons b m2 => simpa [addDurations] using ih

lemma mem_addDurations {t : ℚ} {l : List ProjRow} {o : EventRow} (ho : o ∈ addDurations t l) :
    ∃ p ∈ l, o.trial_num = p.trial_num ∧ o.trial_type = p.trial_type ∧ o.onset = p.onset := by
  induction l with
  | nil => simp [addDurations] at ho
  | cons a m ih =>
    cases m with
    | nil =>
      simp only [addDurations, List.mem_singleton] at ho
      exact ⟨a, List.mem_singleton_self a, by rw [ho], by rw [ho], by rw [ho]⟩
    | cons b m2 =>
      rw [show addDurations t (a :: b :: m2) =
          { trial_num := a.trial_num, trial_type := a.trial_type, onset := a.onset,
            duration := |a.onset - b.onset| } :: addDurations t (b :: m2) from rfl] at ho
      rcases List.mem_cons.mp ho with ho | ho
      · exact ⟨a, List.mem_cons_self a _, by rw [ho], by rw [ho], by rw [ho]⟩
      · obtain ⟨p, hp, h1, h2, h3⟩ := ih ho
        exact ⟨p, List.mem_cons_of_mem a hp, h1, h2, h3⟩

lemma addDurations_getElem_onset (t : ℚ) (l : List ProjRow) (i : Nat)
    (hi : i < l.length) (hi' : i < (addDurations t l).length) :
    (addDurations t l)[i].onset = l[i].onset := by
  induction l generalizing i with
  | nil => simp at hi
  | cons a m ih =>
    cases m with
    | nil =>
      cases i with
      | zero => rfl
      | succ n => simp at hi
    | cons b m2 =>
      cases i with
      | zero => rfl
      | succ n =>
        have hn : n < (b :: m2).length := by simpa using hi
        have hn' : n < (addDurations t (b :: m2)).length := by
          rw [addDurations_length]; exact hn
        have := ih n hn hn'
        simpa [addDurations] using this

lemma addDurations_getElem_duration (t : ℚ) (l : List ProjRow) (i : Nat)
    (hi : i + 1 < (addDurations t l).length) :
    (addDurations t l)[i].duration =
      |(addDurations t l)[i].onset - (addDurations t l)[i + 1].onset| := by
  induction l generalizing i with
  | nil => simp [addDurations] at hi
  | cons a m ih =>
    cases m with
    | nil => simp [addDurations] at hi
    | cons b m2 =>
      cases i with
      | zero =>
        have h0 : (0 : Nat) < (b :: m2).length := by simp
        have h0' : (0 : Nat) < (addDurations t (b :: m2)).length := by
          rw [addDurations_length]; exact h0
        show |a.onset - b.onset| = |a.onset - (addDurations t (b :: m2))[0].onset|
        rw [addDurations_getElem_onset t (b :: m2) 0 h0 h0']
        rfl
      | succ n =>
        have hn : n + 1 < (addDurations t (b :: m2)).length := by
          simpa [addDurations] using hi
        have := ih n hn
        simpa [addDurations] using this

lemma getLast?_cons_of_ne_nil {α : Type} {l : List α} (a : α) (h : l ≠ []) :
    (a :: l).getLast? = l.getLast? := by
  cases l with
  | nil => exact absurd rfl h
  | cons b m => exact List.getLast?_cons_cons

lemma addDurations_getLast? {t : ℚ} {l : List ProjRow} {x : EventRow}
    (h : (addDurations t l).getLast? = some x) :
    x.duration = (t - x.onset * 10000) / 10000 := by
  induction l with
  | nil => simp [addDurations] at h
  | cons a m ih =>
    cases m with
    | nil =>
      simp only [addDurations, List.getLast?_singleton, Option.some.injEq] at h
      rw [← h]
    | cons b m2 =>
      rw [show addDurations t (a :: b :: m2) =
          { trial_num := a.trial_num, trial_type := a.trial_type, onset := a.onset,
            duration := |a.onset - b.onset| } :: addDurations t (b :: m2) from rfl] at h
      have hne : addDurations t (b :: m2) ≠ [] := by
        intro hcon
        have := addDurations_length t (b :: m2)
        rw [hcon] at this
        simp at this
      rw [getLast?_cons_of_ne_nil _ hne] at h
      exact ih h

lemma parseNormalized_ok_eq {rows : List LogRow} {s e : String} (tt : List String)
    {rs re : LogRow}
    (hs : rows.find? (fun r => decide (r.name = s)) = some rs)
    (he : rows.find? (fun r => decide (r.name = e)) = some re) :
    parseNormalized rows s e tt =
      Except.ok (missingTypes rows tt,
        stripMarkers s e (addDurations re.time
          ((filteredRows rows s e tt).map (mkProj rs.time)))) := by
  unfold parseNormalized
  rw [hs, he]

lemma parseNormalized_error_eq {rows : List LogRow} {s e : String} {tt : List String}
    (h : rows.find? (fun r => decide (r.name = s)) = none ∨
         rows.find? (fun r => decide (r.name = e)) = none) :
    parseNormalized rows s e tt =
      Except.error (([s, e]).filter (fun t => decide (t ∉ rows.map LogRow.name))) := by
  unfold parseNormalized
  rcases h with h | h
  · rw [h]
  · rw [h]
    cases hfs : rows.find? (fun r => decide (r.name = s)) <;> rfl

lemma parse_log_file_ok_inv {data : List LogRow} {s e : String} {tt : List String}
    {w : List String} {out : List EventRow}
    (h : parse_log_file data s e tt = Except.ok (w, out)) :
    ∃ rs re,
      (data.map normName).find? (fun r => decide (r.name = upper s)) = some rs ∧
      (data.map normName).find? (fun r => decide (r.name = upper e)) = some re ∧
      w = missingTypes (data.map normName) (tt.map upper) ∧
      out = stripMarkers (upper s) (upper e)
        (addDurations re.time
          ((filteredRows (data.map normName) (upper s) (upper e) (tt.map upper)).map
            (mkProj rs.time))) := by
  unfold parse_log_file at h
  cases hfs : (data.map normName).find? (fun r => decide (r.name = upper s)) with
  | none =>
    rw [parseNormalized_error_eq (Or.inl hfs)] at h
    exact absurd h (by simp)
  | some rs =>
    cases hfe : (data.map normName).find? (fun r => decide (r.name = upper e)) with
    | none =>
      rw [parseNormalized_error_eq (Or.inr hfe)] at h
      exact absurd h (by simp)
    | some re =>
      rw [parseNormalized_ok_eq _ hfs hfe] at h
      simp only [Except.ok.injEq, Prod.mk.injEq] at h
      exact ⟨rs, re, rfl, rfl, h.1.symm, h.2.symm⟩

lemma mem_missingTypes {rows : List LogRow} {tt : List String} {x : String} :
    x ∈ missingTypes rows tt ↔ x ∈ tt ∧ x ∉ rows.map LogRow.name := by
  unfold missingTypes
  simp [List.mem_filter, List.mem_dedup]

lemma char_toUpper_toNat {c : Char} (h : 97 ≤ c.toNat ∧ c.toNat ≤ 122) :
    c.toUpper.toNat = c.toNat - 32 := by
  have hvalid : (c.toNat - 32).isValidChar := Or.inl (by omega)
  show (if c.toNat ≥ 97 ∧ c.toNat ≤ 122 then Char.ofNat (c.toNat - 32) else c).toNat =
    c.toNat - 32
  rw [if_pos h, Char.ofNat, dif_pos hvalid]
  rfl

lemma char_toUpper_eq_of_not {c : Char} (h : ¬(97 ≤ c.toNat ∧ c.toNat ≤ 122)) :
    c.toUpper = c := by
  show (if c.toNat ≥ 97 ∧ c.toNat ≤ 122 then Char.ofNat (c.toNat - 32) else c) = c
  rw [if_neg h]

lemma char_toUpper_idem (c : Char) : c.toUpper.toUpper = c.toUpper := by
  by_cases h : 97 ≤ c.toNat ∧ c.toNat ≤ 122
  · have hn := char_toUpper_toNat h
    apply char_toUpper_eq_of_not
    rw [hn]
    omega
  · rw [char_toUpper_eq_of_not h, char_toUpper_eq_of_not h]

lemma map_toUpper_idem (l : List Char) :
    (l.map Char.toUpper).map Char.toUpper = l.map Char.toUpper := by
  induction l with
  | nil => rfl
  | cons c m ih => simp [char_toUpper_idem, ih]

lemma upper_idem (s : String) : upper (upper s) = upper s := by
  unfold upper
  exact congrArg String.mk (map_toUpper_idem s.data)

lemma parse_exRows_eval :
    parse_log_file exRows "fMRI_T0" "END" exTypes = Except.ok ([], exOut) := by
  have h1 : exRows.map normName = exRows := by decide
  have h2 : upper "fMRI_T0" = "FMRI_T0" := by decide
  have h3 : upper "END" = "END" := by decide
  have h4 : exTypes.map upper = exTypes := by decide
  have hf1 : exRows.find? (fun r => decide (r.name = "FMRI_T0")) =
      some ⟨1, "FMRI_T0", 1000000⟩ := by decide
  have hf2 : exRows.find? (fun r => decide (r.name = "END")) =
      some ⟨3, "END", 1100000⟩ := by decide
  rw [parse_log_file, h1, h2, h3, h4]
  rw [parseNormalized]
  rw [hf1, hf2]
  simp only [exRows, List.map_cons, List.map_nil, mkProj, addDurations, stripMarkers,
    List.filter, exTypes, filteredRows]
  norm_num [EventRow.mk.injEq, exOut]
  decide

/-- C1: for every input log containing both markers, so that
`parse_log_file` succeeds, no returned row's `trial_type` equals the
case-normalized start or end marker. -/
theorem parse_log_file_no_marker_rows (data : List LogRow) (s e : String)
    (tt : List String) (w : List String) (out : List EventRow)
    (h : parse_log_file data s e tt = Except.ok (w, out)) :
    ∀ o ∈ out, o.trial_type ≠ upper s ∧ o.trial_type ≠ upper e := by
  obtain ⟨rs, re, _, _, _, hout⟩ := parse_log_file_ok_inv h
  subst hout
  intro o ho
  unfold stripMarkers at ho
  have := List.of_mem_filter ho
  simpa using this

/-- C1 witness: on the spec example, the first returned row's type differs
from both normalized markers. -/
theorem parse_log_file_no_marker_rows_witness :
    (⟨1, "VAS", 5, 3⟩ : EventRow).trial_type ≠ upper "fMRI_T0" ∧
    (⟨1, "VAS", 5, 3⟩ : EventRow).trial_type ≠ upper "END" :=
  parse_log_file_no_marker_rows exRows "fMRI_T0" "END" exTypes [] exOut
    parse_exRows_eval ⟨1, "VAS", 5, 3⟩ (by decide)

/-- C4: on the concrete spec example (§8) the routine returns exactly the
two rows `(1, VAS, 5, 3)` and `(2, PAIN, 8, 2)`, in that order, with an
empty missing-type warning set. -/
theorem parse_log_file_spec_example :
    parse_log_file exRows "fMRI_T0" "END" exTypes =
      Except.ok ([], [⟨1, "VAS", 5, 3⟩, ⟨2, "PAIN", 8, 2⟩]) :=
  parse_exRows_eval

/-- C2: on every successful call the reference times are the raw times of
the first start-marker row and first end-marker row in table order, and
every output row's onset is `(time_raw - start_time_raw) / 10000` for the
input row it comes from. -/
theorem parse_log_file_onset_formula (data : List LogRow) (s e : String)
    (tt : List String) (w : List String) (out : List EventRow)
    (h : parse_log_file data s e tt = Except.ok (w, out)) :
    ∃ t0 t1,
      isFirstMarkerTime (data.map normName) (upper s) t0 ∧
      isFirstMarkerTime (data.map normName) (upper e) t1 ∧
      out = stripMarkers (upper s) (upper e)
        (addDurations t1 ((filteredRows (data.map normName) (upper s) (upper e)
          (tt.map upper)).map (mkProj t0))) ∧
      ∀ o ∈ out, ∃ r ∈ data.map normName,
        o.trial_num = r.trial ∧ o.trial_type = r.name ∧
          o.onset = (r.time - t0) / 10000 := by
  obtain ⟨rs, re, hfs, hfe, hw, hout⟩ := parse_log_file_ok_inv h
  refine ⟨rs.time, re.time, isFirst_of_find? hfs, isFirst_of_find? hfe, hout, ?_⟩
  intro o ho
  rw [hout] at ho
  unfold stripMarkers at ho
  have ho2 := List.mem_of_mem_filter ho
  obtain ⟨p, hp, h1, h2, h3⟩ := mem_addDurations ho2
  obtain ⟨r, hr, hpr⟩ := List.mem_map.mp hp
  unfold filteredRows at hr
  have hrmem : r ∈ data.map normName := List.mem_of_mem_filter hr
  refine ⟨r, hrmem, ?_, ?_, ?_⟩
  · rw [h1, ← hpr]; rfl
  · rw [h2, ← hpr]; rfl
  · rw [h3, ← hpr]; rfl

/-- C2 witness: the onset law instantiated on the spec example. -/
theorem parse_log_file_onset_formula_witness :
    ∃ t0 t1,
      isFirstMarkerTime (exRows.map normName) (upper "fMRI_T0") t0 ∧
      isFirstMarkerTime (exRows.map normName) (upper "END") t1 ∧
      exOut = stripMarkers (upper "fMRI_T0") (upper "END")
        (addDurations t1 ((filteredRows (exRows.map normName) (upper "fMRI_T0") (upper "END")
          (exTypes.map upper)).map (mkProj t0))) ∧
      ∀ o ∈ exOut, ∃ r ∈ exRows.map normName,
        o.trial_num = r.trial ∧ o.trial_type = r.name ∧
          o.onset = (r.time - t0) / 10000 :=
  parse_log_file_onset_formula exRows "fMRI_T0" "END" exTypes [] exOut parse_exRows_eval

/-- C3: on every successful call, in the filtered table (markers still
included) every non-last row's duration is the absolute difference of
consecutive onsets and the last retained row's duration is
`(end_time_raw - onset * 10000) / 10000`; the output is that table with
the marker rows stripped. -/
theorem parse_log_file_duration_formula (data : List LogRow) (s e : String)
    (tt : List String) (w : List String) (out : List EventRow)
    (h : parse_log_file data s e tt = Except.ok (w, out)) :
    ∃ t0 t1 F,
      isFirstMarkerTime (data.map normName) (upper s) t0 ∧
      isFirstMarkerTime (data.map normName) (upper e) t1 ∧
      F = addDurations t1 ((filteredRows (data.map normName) (upper s) (upper e)
        (tt.map upper)).map (mkProj t0)) ∧
      out = stripMarkers (upper s) (upper e) F ∧
      (∀ (i : Nat) (hi : i + 1 < F.length),
        F[i].duration = |F[i].onset - F[i + 1].onset|) ∧
      (∀ x, F.getLast? = some x → x.duration = (t1 - x.onset * 10000) / 10000) := by
  obtain ⟨rs, re, hfs, hfe, hw, hout⟩ := parse_log_file_ok_inv h
  refine ⟨rs.time, re.time, _, isFirst_of_find? hfs, isFirst_of_find? hfe, rfl, hout,
    ?_, ?_⟩
  · intro i hi
    exact addDurations_getElem_duration re.time _ i hi
  · intro x hx
    exact addDurations_getLast? hx

/-- C3 witness: the duration law instantiated on the spec example. -/
theorem parse_log_file_duration_formula_witness :
    ∃ t0 t1 F,
      isFirstMarkerTime (exRows.map normName) (upper "fMRI_T0") t0 ∧
      isFirstMarkerTime (exRows.map normName) (upper "END") t1 ∧
      F = addDurations t1 ((filteredRows (exRows.map normName) (upper "fMRI_T0") (upper "END")
        (exTypes.map upper)).map (mkProj t0)) ∧
      exOut = stripMarkers (upper "fMRI_T0") (upper "END") F ∧
      (∀ (i : Nat) (hi : i + 1 < F.length),
        F[i].duration = |F[i].onset - F[i + 1].onset|) ∧
      (∀ x, F.getLast? = some x → x.duration = (t1 - x.onset * 10000) / 10000) :=
  parse_log_file_duration_formula exRows "fMRI_T0" "END" exTypes [] exOut parse_exRows_eval

/-- C5: whenever the normalized start or end marker is absent from the
normalized name column, `parse_log_file` fails with an error value listing
exactly the missing marker(s), and produces no output table. -/
theorem parse_log_file_missing_marker_error (data : List LogRow) (s e : String)
    (tt : List String)
    (h : upper s ∉ logNames data ∨ upper e ∉ logNames data) :
    ∃ ms, parse_log_file data s e tt = Except.error ms ∧
      ∀ m, m ∈ ms ↔ ((m = upper s ∨ m = upper e) ∧ m ∉ logNames data) := by
  unfold logNames at h
  have herr : parse_log_file data s e tt =
      Except.error (([upper s, upper e]).filter
        (fun t => decide (t ∉ (data.map normName).map LogRow.name))) := by
    unfold parse_log_file
    apply parseNormalized_error_eq
    rcases h with h | h
    · exact Or.inl (find?_name_eq_none.mpr h)
    · exact Or.inr (find?_name_eq_none.mpr h)
  refine ⟨_, herr, ?_⟩
  intro m
  unfold logNames
  rw [List.mem_filter]
  simp [List.mem_cons]

/-- C5 witness: with the end-marker row removed from the example log, the
call fails and the error set holds exactly the normalized end marker. -/
theorem parse_log_file_missing_marker_error_witness :
    ∃ ms, parse_log_file [(⟨1, "FMRI_T0", 1000000⟩ : LogRow), ⟨1, "VAS", 1050000⟩,
        ⟨2, "PAIN", 1080000⟩] "fMRI_T0" "END" exTypes = Except.error ms ∧
      ∀ m, m ∈ ms ↔ ((m = upper "fMRI_T0" ∨ m = upper "END") ∧
        m ∉ logNames [(⟨1, "FMRI_T0", 1000000⟩ : LogRow), ⟨1, "VAS", 1050000⟩,
          ⟨2, "PAIN", 1080000⟩]) :=
  parse_log_file_missing_marker_error
    [⟨1, "FMRI_T0", 1000000⟩, ⟨1, "VAS", 1050000⟩, ⟨2, "PAIN", 1080000⟩]
    "fMRI_T0" "END" exTypes (Or.inr (by decide))

/-- C9: a requested trial type that case-insensitively equals a marker is
never warned about and never appears in the output when both markers are
present. -/
theorem parse_log_file_marker_in_types (data : List LogRow) (s e t : String)
    (tt : List String)
    (hs : upper s ∈ logNames data) (he : upper e ∈ logNames data)
    (_hmem : t ∈ tt) (hm : upper t = upper s ∨ upper t = upper e) :
    ∃ w out, parse_log_file data s e tt = Except.ok (w, out) ∧
      upper t ∉ w ∧ ∀ o ∈ out, o.trial_type ≠ upper t := by
  obtain ⟨rs, hfs⟩ := find?_of_name_mem hs
  obtain ⟨re, hfe⟩ := find?_of_name_mem he
  have hok := parseNormalized_ok_eq (tt.map upper) hfs hfe
  refine ⟨_, _, by unfold parse_log_file; exact hok, ?_, ?_⟩
  · intro hin
    rw [mem_missingTypes] at hin
    rcases hm with hm | hm
    · rw [hm] at hin; exact hin.2 hs
    · rw [hm] at hin; exact hin.2 he
  · intro o ho
    unfold stripMarkers at ho
    have hcond := List.of_mem_filter ho
    simp only [decide_eq_true_eq] at hcond
    rcases hm with hm | hm
    · rw [hm]; exact hcond.1
    · rw [hm]; exact hcond.2

/-- C9 witness: requesting the end marker "end" itself on the example log
succeeds with no warning for it and no row of that type. -/
theorem parse_log_file_marker_in_types_witness :
    ∃ w out, parse_log_file exRows "fMRI_T0" "END" ["VAS", "end"] = Except.ok (w, out) ∧
      upper "end" ∉ w ∧ ∀ o ∈ out, o.trial_type ≠ upper "end" :=
  parse_log_file_marker_in_types exRows "fMRI_T0" "END" "end" ["VAS", "end"]
    (by decide) (by decide) (by decide) (Or.inr (by decide))

/-- C10: when both markers are present but none of the requested trial
types occurs in the log, the call succeeds with an empty output table and
a warning set listing exactly the requested types. -/
theorem parse_log_file_no_types_present (data : List LogRow) (s e : String)
    (tt : List String)
    (hs : upper s ∈ logNames data) (he : upper e ∈ logNames data)
    (habs : ∀ t ∈ tt, upper t ∉ logNames data) :
    ∃ w, parse_log_file data s e tt = Except.ok (w, []) ∧
      (∀ x, x ∈ w ↔ ∃ t ∈ tt, upper t = x) := by
  obtain ⟨rs, hfs⟩ := find?_of_name_mem hs
  obtain ⟨re, hfe⟩ := find?_of_name_mem he
  have hok := parseNormalized_ok_eq (tt.map upper) hfs hfe
  have hempty : stripMarkers (upper s) (upper e)
      (addDurations re.time ((filteredRows (data.map normName) (upper s) (upper e)
        (tt.map upper)).map (mkProj rs.time))) = [] := by
    unfold stripMarkers
    rw [List.filter_eq_nil_iff]
    intro x hx
    obtain ⟨p, hp, _, h2, _⟩ := mem_addDurations hx
    obtain ⟨r, hr, hpr⟩ := List.mem_map.mp hp
    unfold filteredRows at hr
    have hrel := List.of_mem_filter hr
    have hrmem : r ∈ data.map normName := List.mem_of_mem_filter hr
    simp only [decide_eq_true_eq] at hrel
    unfold relevantNames at hrel
    have hname : r.name ∈ logNames data := List.mem_map_of_mem LogRow.name hrmem
    have htype : x.trial_type = r.name := by rw [h2, ← hpr]; rfl
    simp only [List.mem_cons] at hrel
    simp only [decide_eq_true_eq, not_and, not_not]
    rcases hrel with hrel | hrel | hrel
    · intro hcon; exact absurd (htype.trans hrel) hcon
    · intro hcon; exact htype.trans hrel
    · obtain ⟨t0, ht0, ht0e⟩ := List.mem_map.mp hrel
      exact absurd (ht0e ▸ hname) (habs t0 ht0)
  refine ⟨_, by unfold parse_log_file; rw [hok, hempty], ?_⟩
  intro x
  rw [mem_missingTypes]
  constructor
  · rintro ⟨hx, _⟩
    obtain ⟨t0, ht0, ht0e⟩ := List.mem_map.mp hx
    exact ⟨t0, ht0, ht0e⟩
  · rintro ⟨t0, ht0, rfl⟩
    exact ⟨List.mem_map_of_mem upper ht0, habs t0 ht0⟩

/-- C10 witness: requesting only absent types on the example log yields an
empty table and a warning set holding exactly those types. -/
theorem parse_log_file_no_types_present_witness :
    ∃ w, parse_log_file exRows "fMRI_T0" "END" ["FOO", "bar"] = Except.ok (w, []) ∧
      (∀ x, x ∈ w ↔ ∃ t ∈ (["FOO", "bar"] : List String), upper t = x) :=
  parse_log_file_no_types_present exRows "fMRI_T0" "END" ["FOO", "bar"]
    (by decide) (by decide) (by decide)

/-- C6: with both markers present and some requested types absent, the
call succeeds, warns exactly about the absent requested types, returns the
same output as the call restricted to the present types, and the output is
non-empty as soon as one requested non-marker type is present. -/
theorem parse_log_file_absent_types_warn (data : List LogRow) (s e : String)
    (tt : List String)
    (hs : upper s ∈ logNames data) (he : upper e ∈ logNames data)
    (habs : ∃ t ∈ tt, upper t ∉ logNames data) :
    ∃ w out, parse_log_file data s e tt = Except.ok (w, out) ∧
      w ≠ [] ∧
      (∀ x, x ∈ w ↔ ((∃ t ∈ tt, upper t = x) ∧ x ∉ logNames data)) ∧
      (∃ w2, parse_log_file data s e
        (tt.filter (fun t => decide (upper t ∈ logNames data))) = Except.ok (w2, out)) ∧
      ((∃ t ∈ tt, upper t ∈ logNames data ∧ upper t ≠ upper s ∧ upper t ≠ upper e) →
        out ≠ []) := by
  obtain ⟨rs, hfs⟩ := find?_of_name_mem hs
  obtain ⟨re, hfe⟩ := find?_of_name_mem he
  have hok := parseNormalized_ok_eq (tt.map upper) hfs hfe
  refine ⟨_, _, by unfold parse_log_file; exact hok, ?_, ?_, ?_, ?_⟩
  · obtain ⟨t0, ht0, ht0n⟩ := habs
    exact List.ne_nil_of_mem
      (mem_missingTypes.mpr ⟨List.mem_map_of_mem upper ht0, ht0n⟩)
  · intro x
    rw [mem_missingTypes]
    constructor
    · rintro ⟨hx, hxn⟩
      obtain ⟨t0, ht0, ht0e⟩ := List.mem_map.mp hx
      exact ⟨⟨t0, ht0, ht0e⟩, hxn⟩
    · rintro ⟨⟨t0, ht0, rfl⟩, hxn⟩
      exact ⟨List.mem_map_of_mem upper ht0, hxn⟩
  · have hfilter : filteredRows (data.map normName) (upper s) (upper e)
        ((tt.filter (fun t => decide (upper t ∈ logNames data))).map upper) =
        filteredRows (data.map normName) (upper s) (upper e) (tt.map upper) := by
      unfold filteredRows
      apply List.filter_congr
      intro r hr
      have hname : r.name ∈ logNames data := List.mem_map_of_mem LogRow.name hr
      rw [decide_eq_decide]
      unfold relevantNames
      simp only [List.mem_cons]
      constructor
      · rintro (h | h | h)
        · exact Or.inl h
        · exact Or.inr (Or.inl h)
        · obtain ⟨t0, ht0f, ht0e⟩ := List.mem_map.mp h
          exact Or.inr (Or.inr
            (ht0e ▸ List.mem_map_of_mem upper (List.mem_of_mem_filter ht0f)))
      · rintro (h | h | h)
        · exact Or.inl h
        · exact Or.inr (Or.inl h)
        · obtain ⟨t0, ht0, ht0e⟩ := List.mem_map.mp h
          have hpass : decide (upper t0 ∈ logNames data) = true := by
            simp only [decide_eq_true_eq]
            rw [ht0e]
            exact hname
          exact Or.inr (Or.inr
            (ht0e ▸ List.mem_map_of_mem upper (List.mem_filter.mpr ⟨ht0, hpass⟩)))
    refine ⟨missingTypes (data.map normName)
      ((tt.filter (fun t => decide (upper t ∈ logNames data))).map upper), ?_⟩
    unfold parse_log_file
    rw [parseNormalized_ok_eq _ hfs hfe, hfilter]
  · rintro ⟨t0, ht0, htpres, htns, htne⟩ hcon
    unfold logNames at htpres
    obtain ⟨r, hrmem0, hrname⟩ := List.mem_map.mp htpres
    have hrfilt : r ∈ filteredRows (data.map normName) (upper s) (upper e)
        (tt.map upper) := by
      unfold filteredRows
      refine List.mem_filter.mpr ⟨hrmem0, ?_⟩
      simp only [decide_eq_true_eq]
      unfold relevantNames
      exact List.mem_cons_of_mem _ (List.mem_cons_of_mem _
        (hrname ▸ List.mem_map_of_mem upper ht0))
    have hp := List.mem_map_of_mem (mkProj rs.time) hrfilt
    have htypemem : r.name ∈ (addDurations re.time
        ((filteredRows (data.map normName) (upper s) (upper e)
          (tt.map upper)).map (mkProj rs.time))).map EventRow.trial_type := by
      rw [addDurations_map_type]
      exact List.mem_map_of_mem ProjRow.trial_type hp
    obtain ⟨x, hxmem, hxname⟩ := List.mem_map.mp htypemem
    have hxout : x ∈ stripMarkers (upper s) (upper e) (addDurations re.time
        ((filteredRows (data.map normName) (upper s) (upper e)
          (tt.map upper)).map (mkProj rs.time))) := by
      unfold stripMarkers
      refine List.mem_filter.mpr ⟨hxmem, ?_⟩
      simp only [decide_eq_true_eq]
      rw [hxname, hrname]
      exact ⟨htns, htne⟩
    rw [hcon] at hxout
    simp at hxout

/-- C6 witness: requesting the absent type FLANKER on the example log
still succeeds, warns, and returns the same non-empty table as the
restriction to the present types. -/
theorem parse_log_file_absent_types_warn_witness :
    ∃ w out, parse_log_file exRows "fMRI_T0" "END" ["VAS", "PAIN", "FLANKER"] =
        Except.ok (w, out) ∧
      w ≠ [] ∧
      (∀ x, x ∈ w ↔ ((∃ t ∈ (["VAS", "PAIN", "FLANKER"] : List String), upper t = x) ∧
        x ∉ logNames exRows)) ∧
      (∃ w2, parse_log_file exRows "fMRI_T0" "END"
        ((["VAS", "PAIN", "FLANKER"] : List String).filter
          (fun t => decide (upper t ∈ logNames exRows))) = Except.ok (w2, out)) ∧
      ((∃ t ∈ (["VAS", "PAIN", "FLANKER"] : List String), upper t ∈ logNames exRows ∧
        upper t ≠ upper "fMRI_T0" ∧ upper t ≠ upper "END") → out ≠ []) :=
  parse_log_file_absent_types_warn exRows "fMRI_T0" "END" ["VAS", "PAIN", "FLANKER"]
    (by decide) (by decide) (by decide)

/-- C7: inputs differing only in letter case (same normalized name column,
markers and type list) give identical results, and every output type is
upper-case normalized. -/
theorem parse_log_file_case_insensitive (d1 d2 : List LogRow) (s1 s2 e1 e2 : String)
    (t1 t2 : List String)
    (hd : d2.map normName = d1.map normName) (hs : upper s2 = upper s1)
    (he : upper e2 = upper e1) (ht : t2.map upper = t1.map upper) :
    parse_log_file d2 s2 e2 t2 = parse_log_file d1 s1 e1 t1 ∧
    ∀ w out, parse_log_file d1 s1 e1 t1 = Except.ok (w, out) →
      ∀ o ∈ out, o.trial_type = upper o.trial_type := by
  constructor
  · unfold parse_log_file
    rw [hd, hs, he, ht]
  · intro w out hok o ho
    obtain ⟨rs, re, hfs, hfe, hw, hout⟩ := parse_log_file_ok_inv hok
    rw [hout] at ho
    unfold stripMarkers at ho
    have ho2 := List.mem_of_mem_filter ho
    obtain ⟨p, hp, _, h2, _⟩ := mem_addDurations ho2
    obtain ⟨r, hr, hpr⟩ := List.mem_map.mp hp
    unfold filteredRows at hr
    have hrmem := List.mem_of_mem_filter hr
    obtain ⟨r0, hr0, hr0e⟩ := List.mem_map.mp hrmem
    have hto : o.trial_type = upper r0.name := by
      rw [h2, ← hpr]
      show r.name = upper r0.name
      rw [← hr0e]
      rfl
    rw [hto, upper_idem]

/-- C7 witness: a case-varied copy of the example inputs gives the same
result, and the VAS row's type is upper-case invariant. -/
theorem parse_log_file_case_insensitive_witness :
    parse_log_file [(⟨1, "fmri_t0", 1000000⟩ : LogRow), ⟨1, "vas", 1050000⟩,
        ⟨2, "Pain", 1080000⟩, ⟨3, "end", 1100000⟩] "FMRI_t0" "end" ["vas", "pain"] =
      parse_log_file exRows "fMRI_T0" "END" exTypes ∧
    ∀ w out, parse_log_file exRows "fMRI_T0" "END" exTypes = Except.ok (w, out) →
      ∀ o ∈ out, o.trial_type = upper o.trial_type :=
  parse_log_file_case_insensitive exRows
    [⟨1, "fmri_t0", 1000000⟩, ⟨1, "vas", 1050000⟩, ⟨2, "Pain", 1080000⟩, ⟨3, "end", 1100000⟩]
    "fMRI_T0" "FMRI_t0" "END" "end" exTypes ["vas", "pain"]
    (by decide) (by decide) (by decide) (by decide)

/-- C8: if the raw log rows are in non-decreasing order of raw Time, the
onsets of the returned rows are non-decreasing in output order. -/
theorem parse_log_file_onset_monotone (data : List LogRow) (s e : String)
    (tt : List String) (w : List String) (out : List EventRow)
    (hsort : List.Pairwise (fun a b => a.time ≤ b.time) data)
    (h : parse_log_file data s e tt = Except.ok (w, out)) :
    List.Pairwise (· ≤ ·) (out.map EventRow.onset) := by
  obtain ⟨rs, re, hfs, hfe, hw, hout⟩ := parse_log_file_ok_inv h
  have h1 : List.Pairwise (fun a b : LogRow => a.time ≤ b.time) (data.map normName) := by
    rw [List.pairwise_map]
    exact hsort
  have h2 : List.Pairwise (fun a b : LogRow => a.time ≤ b.time)
      (filteredRows (data.map normName) (upper s) (upper e) (tt.map upper)) := by
    unfold filteredRows
    exact List.Pairwise.sublist (List.filter_sublist _) h1
  have h3 : List.Pairwise (· ≤ ·)
      ((addDurations re.time ((filteredRows (data.map normName) (upper s) (upper e)
        (tt.map upper)).map (mkProj rs.time))).map EventRow.onset) := by
    rw [addDurations_map_onset, List.map_map, List.pairwise_map]
    refine h2.imp ?_
    intro a b hab
    show (a.time - rs.time) / 10000 ≤ (b.time - rs.time) / 10000
    gcongr
  rw [hout]
  unfold stripMarkers
  exact List.Pairwise.sublist (List.Sublist.map EventRow.onset (List.filter_sublist _)) h3

/-- C8 witness: the example log is chronologically ordered and the output
onsets 5 and 8 are non-decreasing. -/
theorem parse_log_file_onset_monotone_witness :
    List.Pairwise (· ≤ ·) (exOut.map EventRow.onset) :=
  parse_log_file_onset_monotone exRows "fMRI_T0" "END" exTypes [] exOut
    (by norm_num [exRows, List.pairwise_cons]) parse_exRows_eval
